import Mathlib

/-!
# Verification of the job-orchestration core of a media download service

This file gives a shallow embedding, in Lean, of the orchestration core
implemented in `src/web/app.py` (a Flask application around the `yt_dlp`
media-fetch engine), and proves properties of that embedding.

Python strings are modelled as Lean `String`s (lists of characters);
Python `float` progress arithmetic is idealised as exact rational
arithmetic in `ℚ`, with `round(x, 2)` modelled as rounding half-to-even
at two decimal places (Python's rounding of decimal ties); Python dicts
mapping job ids to status dicts are modelled as association lists; the
heterogeneous status dicts are modelled by the inductive `JobStatus`,
one constructor per `status` tag the code ever stores, carrying exactly
the extra keys the code stores alongside that tag.
-/

namespace YtWeb

/-! ## Progress events and status snapshots

`Event` models the dict `d` the `yt_dlp` engine passes to
`progress_hook` (`app.py`, lines 146-181).  Fields the code reads with
`d.get(k)` / `d.get(k, 0)` are modelled as `Option Nat`. -/

structure Event where
  status : String
  total_bytes : Option Nat
  total_bytes_estimate : Option Nat
  downloaded_bytes : Option Nat
  speed : Option Nat
  eta : Option Nat
deriving DecidableEq

/-- One value of the `download_status` dict: the code stores dicts whose
`'status'` key is one of `queued`, `downloading`, `processing`,
`completed`, `error`, with exactly the extra keys written at the
corresponding write sites in `app.py`. -/
inductive JobStatus where
  | queued (percent : ℚ)
  | downloading (percent : ℚ) (downloaded total speed eta : Nat)
  | processing (percent : ℚ)
  | completed (percent : ℚ) (filename filepath title : String)
  | jobError (msg : String)
deriving DecidableEq

/-- The `'status'` string stored in the snapshot dict. -/
def JobStatus.statusKey : JobStatus → String
  | .queued _ => "queued"
  | .downloading _ _ _ _ _ => "downloading"
  | .processing _ => "processing"
  | .completed _ _ _ _ => "completed"
  | .jobError _ => "error"

/-- The `'percent'` value of a snapshot (the `error` snapshot carries no
percent; we read it as 0 there). -/
def JobStatus.percentOf : JobStatus → ℚ
  | .queued p => p
  | .downloading p _ _ _ _ => p
  | .processing p => p
  | .completed p _ _ _ => p
  | .jobError _ => 0

/-- Whether the snapshot's state is `downloading` or `processing` (the
states during which the Progress Reporter writes). -/
def JobStatus.isActive : JobStatus → Bool
  | .downloading _ _ _ _ _ => true
  | .processing _ => true
  | _ => false

def JobStatus.isCompleted : JobStatus → Bool
  | .completed _ _ _ _ => true
  | _ => false

/-! ## Rounding

`round(percent, 2)` in Python rounds to two decimal places, resolving
decimal ties to the even last digit.  We model this exactly over `ℚ`. -/

/-- Round a rational to the nearest integer, ties to even. -/
def roundHalfEven (x : ℚ) : ℤ :=
  if x - ⌊x⌋ < 1/2 then ⌊x⌋
  else if x - ⌊x⌋ > 1/2 then ⌊x⌋ + 1
  else if ⌊x⌋ % 2 = 0 then ⌊x⌋ else ⌊x⌋ + 1

/-- Python's `round(x, 2)`: round to two decimal places, ties to even. -/
def pyRound2 (x : ℚ) : ℚ := (roundHalfEven (x * 100) : ℚ) / 100

/-! ## The Progress Reporter (`progress_hook`, `app.py` lines 146-181) -/

/-- `total = d.get('total_bytes') or d.get('total_bytes_estimate', 0)`:
Python `or` falls through on a falsy (absent or zero) first operand. -/
def effTotal (d : Event) : Nat :=
  match d.total_bytes with
  | some t => if t ≠ 0 then t else d.total_bytes_estimate.getD 0
  | none => d.total_bytes_estimate.getD 0

/-- The snapshot `progress_hook` writes to `download_status` for event
`d`: a full `downloading` snapshot on a `'downloading'` event (percent
`min(downloaded/total*100, 99.9)` rounded to two decimals when a
positive total is known, else 0), a `processing`/95 snapshot on a
`'finished'` event, and no write on any other status. -/
def hookSnapshot (d : Event) : Option JobStatus :=
  if d.status = "downloading" then
    let total := effTotal d
    let downloaded := d.downloaded_bytes.getD 0
    let percent : ℚ :=
      if 0 < total then min ((downloaded : ℚ) / (total : ℚ) * 100) (999/10)
      else 0
    some (.downloading (pyRound2 percent) downloaded total
      (d.speed.getD 0) (d.eta.getD 0))
  else if d.status = "finished" then
    some (.processing 95)
  else none

/-- `progress_hook` itself: its whole body is wrapped in
`try: ... except Exception: print(...)`.  The store write is modelled as
an arbitrary fallible operation `write`; the hook swallows its failure
(the caller — the engine's download loop — never sees an exception). -/
def progress_hook (write : JobStatus → Except String Unit) (d : Event) :
    Except String Unit :=
  match (match hookSnapshot d with
         | some s => write s
         | none => Except.ok ()) with
  | .ok _ => Except.ok ()
  | .error _ => Except.ok ()

/-! ## Terminal writes of the Job Runner
(`download_video_with_progress`, `app.py` lines 255-268) -/

/-- `os.path.basename`: the part of the path after the last `'/'`. -/
def baseName (p : String) : String :=
  match p.data.reverse.takeWhile (fun c => c ≠ '/') with
  | l => String.mk l.reverse

/-- The `completed` snapshot written on success (`app.py` lines 255-262):
percent is the literal 100. -/
def completedWrite (filename title : String) : JobStatus :=
  .completed 100 (baseName filename) filename title

/-- The `error` snapshot written when the background task fails. -/
def errorWrite (msg : String) : JobStatus := .jobError msg

/-- The sequence of snapshots written to the store over a successful
run driven by the engine events `evs` (in emission order, the code
applies them in order under the lock), followed by the terminal
`completed` write. -/
def runTrace (evs : List Event) (filename title : String) : List JobStatus :=
  evs.filterMap hookSnapshot ++ [completedWrite filename title]

/-- Percent is non-decreasing along a trace, over the snapshots whose
state is `downloading` or `processing`. -/
def percentMonotoneOn (tr : List JobStatus) : Prop :=
  ∀ i j (hi : i < tr.length) (hj : j < tr.length), i ≤ j →
    (tr.get ⟨i, hi⟩).isActive = true →
    (tr.get ⟨j, hj⟩).isActive = true →
    (tr.get ⟨i, hi⟩).percentOf ≤ (tr.get ⟨j, hj⟩).percentOf

/-- Claim C1 as stated: over any engine event sequence, the percent of
the successive snapshots is non-decreasing whenever both states are
`downloading`/`processing`, and the `completed` snapshot has percent
exactly 100. -/
def claimC1 (evs : List Event) (filename title : String) : Prop :=
  percentMonotoneOn (runTrace evs filename title) ∧
  (∀ s ∈ runTrace evs filename title, s.isCompleted = true →
    s.percentOf = 100)

/-- Claim C2 as stated: on a `downloading` event with a positive known
total, the written snapshot's percent is exactly
`min(downloaded/total*100, 99.9)` (no rounding); the zero-total and
`finished` cases as in the spec. -/
def claimC2 : Prop :=
  ∀ d : Event,
    (d.status = "downloading" → 0 < effTotal d →
      ∃ s, hookSnapshot d = some s ∧ s.statusKey = "downloading" ∧
        s.percentOf =
          min ((d.downloaded_bytes.getD 0 : ℚ) / (effTotal d : ℚ) * 100)
            (999/10)) ∧
    (d.status = "downloading" → effTotal d = 0 →
      ∃ s, hookSnapshot d = some s ∧ s.percentOf = 0) ∧
    (d.status = "finished" →
      hookSnapshot d = some (.processing 95))

/-! ## Audio quality table (`app.py` lines 187-194) -/

/-- The literal `quality_map` dict. -/
def quality_map : List (String × String) :=
  [("128", "128"), ("192", "192"), ("256", "256"), ("320", "320"),
   ("best", "192")]

/-- `quality_map.get(quality, '192')`. -/
def audioQuality (quality : String) : String :=
  ((quality_map.find? (fun p => p.1 == quality)).map (fun p => p.2)).getD "192"

/-! ## Video format selector (`app.py` lines 209-237) -/

/-- Python `str.lower()` (ASCII-wise), on the character list. -/
def toLowerS (s : String) : String := String.mk (s.data.map Char.toLower)

/-- Parse a non-empty all-digit character list as a decimal number. -/
def digitsToNat? (l : List Char) : Option Nat :=
  if l ≠ [] ∧ l.all Char.isDigit
  then some (l.foldl (fun a c => 10 * a + (c.toNat - 48)) 0)
  else none

/-- `int(quality.replace('p', ''))`: remove every `'p'`, then parse as a
decimal number (Python `int` raises on a non-numeric remainder, modelled
as `none`). -/
def parseHeight (quality : String) : Option Nat :=
  digitsToNat? (quality.data.filter (fun c => c ≠ 'p'))

/-- The yt-dlp format-selector expression built for the video path
(`app.py` lines 213-227), `none` when `int()` raises. -/
def videoFormatString (file_format quality : String) : Option String :=
  let video_format := toLowerS file_format
  if quality = "best" then some "bestvideo+bestaudio/best"
  else
    match parseHeight quality with
    | none => none
    | some height =>
      let hs := toString height
      if video_format = "mp4" then
        some ("bestvideo[height<=" ++ hs ++ "][ext=mp4]+bestaudio[ext=m4a]/bestvideo[height<="
          ++ hs ++ "]+bestaudio/best[height<=" ++ hs ++ "][ext=mp4]/best[ext=mp4]/best")
      else if video_format = "mkv" then
        some ("bestvideo[height<=" ++ hs ++ "]+bestaudio/best[height<=" ++ hs ++ "]/best")
      else
        some ("bestvideo[height<=" ++ hs ++ "]+bestaudio/best")

/-- Modelled from the spec's words (claim C4): the claimed fallback
chain for `formatType=video`, `quality=<N>p` — (requested container and
height ≤ N) → (any container, height ≤ N) → (best overall with height
≤ N) → (best in the requested container) → (absolute best) — rendered
in the engine's selector syntax, as character lists. -/
def specFallbackChain (file_format : String) (height : Nat) : List (List Char) :=
  [ "bestvideo[height<=".data ++ (toString height).data ++
      ("][ext=" ++ file_format ++ "]+bestaudio").data,
    "bestvideo[height<=".data ++ (toString height).data ++ "]+bestaudio".data,
    "best[height<=".data ++ (toString height).data ++ "]".data,
    ("best[ext=" ++ file_format ++ "]").data,
    "best".data ]

/-- The audio-branch engine options (`app.py` lines 196-208). -/
structure AudioOpts where
  format : String
  preferredcodec : String
  preferredquality : String
deriving DecidableEq

/-- The video-branch engine options (`app.py` lines 229-237). -/
structure VideoOpts where
  format : String
  merge_output_format : String
deriving DecidableEq

/-- The engine configuration selected by the branch on `format_type`
(`app.py` line 184: `if format_type == 'audio': ... else: ...`). -/
inductive YdlOpts where
  | audio (o : AudioOpts)
  | video (o : VideoOpts)
deriving DecidableEq

/-- Build the engine configuration for a submission; `none` models the
`int()` exception escaping to the outer `try` (which records an `error`
snapshot). -/
def buildYdlOpts (format_type file_format quality : String) : Option YdlOpts :=
  if format_type = "audio" then
    some (.audio ⟨"bestaudio/best", toLowerS file_format, audioQuality quality⟩)
  else
    (videoFormatString file_format quality).map
      (fun fs => .video ⟨fs, toLowerS file_format⟩)

/-! ## The Job Record Store and the system state

`download_status` is a dict from job id to snapshot, every access under
`download_lock`; we model it as an association list (writes replace any
previous binding).  `files` models the set of paths that exist on disk
(`os.path.exists`). -/

def Store := List (String × JobStatus)
deriving DecidableEq

def storeGet (s : Store) (id : String) : Option JobStatus :=
  (s.find? (fun p => p.1 == id)).map (fun p => p.2)

def storeSet (s : Store) (id : String) (v : JobStatus) : Store :=
  (id, v) :: s.filter (fun p => !(p.1 == id))

def storeDel (s : Store) (id : String) : Store :=
  s.filter (fun p => !(p.1 == id))

structure SysState where
  store : Store
  files : List String
deriving DecidableEq

/-! ## Artifact cleanup (`delete_file_after_delay`, `app.py` 417-431)

After the 2-second grace sleep the cleanup thread performs, in order:
`if os.path.exists(filepath): os.remove(filepath)`, then — taking the
lock only now — `if download_id in download_status: del ...`.  The two
steps are two distinct atomic actions; a status lookup can be scheduled
between them. -/

/-- First cleanup step: remove the artifact file from disk. -/
def cleanupFileStep (s : SysState) (filepath : String) : SysState :=
  { s with files := s.files.filter (fun q => !(q == filepath)) }

/-- Second cleanup step: remove the store entry, under the lock. -/
def cleanupStoreStep (s : SysState) (id : String) : SysState :=
  { s with store := if (storeGet s.store id).isSome
                    then storeDel s.store id else s.store }

/-- The whole deferred cleanup, both steps in program order. -/
def delete_file_after_delay (s : SysState) (filepath id : String) : SysState :=
  cleanupStoreStep (cleanupFileStep s filepath) id

/-- The intermediate states a concurrent reader can observe while the
cleanup for `(filepath, id)` runs: after the file removal but before
the store removal, and after both. -/
def cleanupTrace (s : SysState) (filepath id : String) : List SysState :=
  [cleanupFileStep s filepath, delete_file_after_delay s filepath id]

/-- `GET /api/download/status/<id>`: the snapshot, or `none` standing
for the `{'status': 'not_found'}` reply (`app.py` 382-387). -/
def statusLookup (s : SysState) (id : String) : Option JobStatus :=
  storeGet s.store id

/-- No store entry dangles: every `completed` entry's `filepath` still
exists on disk. -/
def noDangling (s : SysState) : Bool :=
  s.store.all (fun pr =>
    match pr.2 with
    | .completed _ _ fp _ => s.files.contains fp
    | _ => true)

/-- Claim C3's atomicity half, as stated: at no point during the
cleanup can a lookup observe a record whose artifact path is no longer
on disk. -/
def claimC3 (s : SysState) (filepath id : String) : Prop :=
  ∀ st ∈ cleanupTrace s filepath id, noDangling st = true

/-! ## Submission (`download`, `app.py` lines 346-379) -/

/-- The JSON body of `POST /api/download`; each field read with
`data.get(k, default)`. -/
structure DownloadRequest where
  url : Option String
  format : Option String
  file_format : Option String
  quality : Option String

def DownloadRequest.urlOf (r : DownloadRequest) : String := r.url.getD ""
def DownloadRequest.formatOf (r : DownloadRequest) : String := r.format.getD "video"
def DownloadRequest.fileFormatOf (r : DownloadRequest) : String := r.file_format.getD "mp4"
def DownloadRequest.qualityOf (r : DownloadRequest) : String := r.quality.getD "best"

/-- The handler's reply: HTTP 400 with `{'error': msg}`, or
`{'success': True, 'download_id': id}`. -/
inductive SubmitResponse where
  | error400 (msg : String)
  | success (download_id : String)
deriving DecidableEq

/-- The `download` handler: validates the url, then creates the
`queued` entry under the freshly generated uuid (passed in as
`freshId`) and spawns the background task.  Returns the reply and the
updated store. -/
def download (req : DownloadRequest) (freshId : String) (s : Store) :
    SubmitResponse × Store :=
  if req.urlOf = "" then (.error400 "URL gerekli", s)
  else (.success freshId, storeSet s freshId (.queued 0))

/-! ## Artifact delivery (`download_file`, `app.py` lines 390-402) -/

/-- The delivery handler's reply: HTTP 404 with `{'error': msg}`, or the
chunked byte stream of the file at `filepath`, served under
`filename`. -/
inductive FileResponse where
  | notFound404 (msg : String)
  | fileStream (filepath filename : String)
deriving DecidableEq

def JobStatus.filepathOf : JobStatus → Option String
  | .completed _ _ fp _ => some fp
  | _ => none

def JobStatus.filenameOf : JobStatus → Option String
  | .completed _ fn _ _ => some fn
  | _ => none

/-- The guard logic of `download_file`: entry present and `completed`
(checked under the lock), then `filepath` truthy and existing on disk;
only then is the stream opened. -/
def download_file (store : Store) (files : List String) (id : String) :
    FileResponse :=
  match storeGet store id with
  | none => .notFound404 "İndirme tamamlanmadı"
  | some st =>
    if st.statusKey ≠ "completed" then .notFound404 "İndirme tamamlanmadı"
    else
      match st.filepathOf with
      | none => .notFound404 "Dosya bulunamadı"
      | some fp =>
        if fp = "" then .notFound404 "Dosya bulunamadı"
        else if files.contains fp then .fileStream fp (st.filenameOf.getD "")
        else .notFound404 "Dosya bulunamadı"

/-! ## Character-list primitives

`clean_youtube_url` (`app.py` lines 28-62) leans on Python string
operations and on `urllib.parse`.  We model strings as their character
lists and implement each operation recursively. -/

/-- `pat` is a prefix of `l` (character-wise). -/
def leadsWith : List Char → List Char → Bool
  | [], _ => true
  | _ :: _, [] => false
  | p :: ps, c :: cs => (p == c) && leadsWith ps cs

/-- Python's substring test `pat in l`. -/
def containsSub (l pat : List Char) : Bool :=
  match l with
  | [] => leadsWith pat []
  | _ :: cs => leadsWith pat l || containsSub cs pat

/-- Split at the first occurrence of `t`: `some (before, after)`, or
`none` when `t` does not occur (models `str.find` / `str.split(t, 1)`). -/
def splitAtFirst (t : Char) : List Char → Option (List Char × List Char)
  | [] => none
  | c :: cs =>
    if c = t then some ([], cs)
    else (splitAtFirst t cs).map (fun p => (c :: p.1, p.2))

/-- `str.split(t)[0]`: everything before the first `t`. -/
def takeUntilChar (t : Char) : List Char → List Char
  | [] => []
  | c :: cs => if c = t then [] else c :: takeUntilChar t cs

/-- Python `str.split(t)`. -/
def splitOnCharL (t : Char) : List Char → List (List Char)
  | [] => [[]]
  | c :: cs =>
    if c = t then [] :: splitOnCharL t cs
    else
      match splitOnCharL t cs with
      | [] => [[c]]
      | y :: ys => (c :: y) :: ys

/-- `str.lstrip(t)`. -/
def dropLeadingChar (t : Char) : List Char → List Char
  | [] => []
  | c :: cs => if c = t then dropLeadingChar t cs else c :: cs

/-- Split at the last `'/'`: `(everything up to and including the last
slash, the rest)`; `([], l)` when there is no slash. -/
def splitLastSlash (l : List Char) : List Char × List Char :=
  match l with
  | [] => ([], [])
  | c :: cs =>
    if containsSub cs ['/'] || c = '/' then
      match splitLastSlash cs with
      | (a, b) => if containsSub cs ['/'] then (c :: a, b) else (c :: a, cs)
    else ([], c :: cs)

/-! ## `urllib.parse` model

`urlparse`/`parse_qs` are external collaborators (Python's standard
library); we model the parts of their documented behaviour that
`clean_youtube_url` exercises, at the ASCII level (percent-decoding is
modelled byte-wise, without multi-byte UTF-8 reassembly). -/

/-- Characters `urlsplit` removes anywhere in the url (`\t`, `\r`,
`\n`). -/
def keepSafe (c : Char) : Bool :=
  !(c == '\t') && !(c == '\r') && !(c == '\n')

def removeUnsafe (l : List Char) : List Char := l.filter keepSafe

/-- Characters allowed in a scheme. -/
def schemeChar (c : Char) : Bool :=
  c.isAlpha || c.isDigit || c == '+' || c == '-' || c == '.'

/-- Scheme extraction: split at the first `':'` when everything before
it is a non-empty valid scheme starting with a letter. -/
def schemeSplit (l : List Char) : List Char × List Char :=
  match splitAtFirst ':' l with
  | some (before, after) =>
    if before ≠ [] ∧ (before.headD 'a').isAlpha ∧ before.all schemeChar
    then (before.map Char.toLower, after) else ([], l)
  | none => ([], l)

/-- Netloc: chars after a leading `"//"` up to the first `'/'`, `'?'`
or `'#'`. -/
def takeNetloc : List Char → List Char × List Char
  | [] => ([], [])
  | c :: cs =>
    if c = '/' ∨ c = '?' ∨ c = '#' then ([], c :: cs)
    else
      match takeNetloc cs with
      | (n, r) => (c :: n, r)

def netlocSplit (l : List Char) : List Char × List Char :=
  if leadsWith ['/', '/'] l then takeNetloc (l.drop 2) else ([], l)

/-- Split off the fragment at the first `'#'`. -/
def fragSplit (l : List Char) : List Char × List Char :=
  match splitAtFirst '#' l with
  | some (a, b) => (a, b)
  | none => (l, [])

/-- Split off the query at the first `'?'`. -/
def querySplit (l : List Char) : List Char × List Char :=
  match splitAtFirst '?' l with
  | some (a, b) => (a, b)
  | none => (l, [])

/-- `urlparse` additionally splits `;params` off the last path
segment. -/
def splitParamsL (path : List Char) : List Char × List Char :=
  match splitLastSlash path with
  | (a, b) =>
    match splitAtFirst ';' b with
    | some (x, y) => (a ++ x, y)
    | none => (path, [])

structure UrlParts where
  scheme : List Char
  netloc : List Char
  path : List Char
  params : List Char
  query : List Char
  fragment : List Char

/-- `urllib.parse.urlparse`, modelled for the fields the code reads. -/
def urlparseL (url : List Char) : UrlParts :=
  let u := removeUnsafe url
  let sp := schemeSplit u
  let np := netlocSplit sp.2
  let fp := fragSplit np.2
  let qp := querySplit fp.1
  let pp := splitParamsL qp.1
  ⟨sp.1, np.1, pp.1, pp.2, qp.2, fp.2⟩

/-- Hex digit value. -/
def hexVal (c : Char) : Option Nat :=
  if '0' ≤ c ∧ c ≤ '9' then some (c.toNat - 48)
  else if 'a' ≤ c ∧ c ≤ 'f' then some (c.toNat - 87)
  else if 'A' ≤ c ∧ c ≤ 'F' then some (c.toNat - 55)
  else none

/-- Percent-decoding (`urllib.parse.unquote`, byte-wise). -/
def pctDecode : List Char → List Char
  | [] => []
  | '%' :: a :: b :: rest =>
    (match hexVal a, hexVal b with
     | some x, some y => Char.ofNat (16 * x + y) :: pctDecode rest
     | _, _ => '%' :: pctDecode (a :: b :: rest))
  | c :: rest => c :: pctDecode rest

/-- `urllib.parse.unquote_plus`: `'+'` to space, then percent-decode. -/
def unquotePlus (l : List Char) : List Char :=
  pctDecode (l.map (fun c => if c = '+' then ' ' else c))

/-- `urllib.parse.parse_qsl` with the defaults `clean_youtube_url`
uses (`keep_blank_values=False`, separator `'&'`): split on `'&'`,
drop empty fields, split each field at its first `'='` (fields without
`'='` or with an empty value are dropped), unquote name and value. -/
def parse_qslL (qs : List Char) : List (List Char × List Char) :=
  (splitOnCharL '&' qs).filterMap (fun nv =>
    if nv = [] then none
    else
      match splitAtFirst '=' nv with
      | none => none
      | some (n, v) =>
        if v = [] then none else some (unquotePlus n, unquotePlus v))

/-- `parse_qs(qs)[key][0]`: the first value bound to `key`, if any. -/
def qsFirst (key : List Char) (l : List (List Char × List Char)) :
    Option (List Char) :=
  (l.find? (fun p => p.1 == key)).map (fun p => p.2)

/-- `re.search(r'[?&]v=([^&]+)', url)`: leftmost position where `'?'`
or `'&'` is followed by `"v="` and at least one non-`'&'` character;
the group is the maximal such run. -/
def findVeq : List Char → Option (List Char)
  | [] => none
  | c :: rest =>
    if c = '?' ∨ c = '&' then
      match rest with
      | 'v' :: '=' :: tail =>
        match tail.takeWhile (fun x => x ≠ '&') with
        | [] => findVeq rest
        | g => some g
      | _ => findVeq rest
    else findVeq rest

/-! ## `clean_youtube_url` (`app.py` lines 28-62) -/

def ytWatchPat : List Char := "youtube.com/watch".data
def ytBePat : List Char := "youtu.be".data
def watchPat : List Char := "watch".data
def vEqPat : List Char := "v=".data
def listEqPat : List Char := "list=".data
def canonPre : List Char := "https://www.youtube.com/watch?v=".data

/-- The fall-through tail of `clean_youtube_url`: the `'list='` regex
branch, then `url.split('&')[0] if '&' in url else url`. -/
def cleanRest (urlL : List Char) : List Char :=
  if containsSub urlL listEqPat then
    match findVeq urlL with
    | some g => canonPre ++ g
    | none => if containsSub urlL ['&'] then takeUntilChar '&' urlL else urlL
  else if containsSub urlL ['&'] then takeUntilChar '&' urlL else urlL

/-- The `video_id` computed inside the first branch (`None` when the
branch leaves it unset). -/
def cleanVideoId (urlL : List Char) (parsed : UrlParts) : Option (List Char) :=
  if containsSub urlL ytBePat then
    some (takeUntilChar '&' (takeUntilChar '?' (dropLeadingChar '/' parsed.path)))
  else if containsSub parsed.path watchPat || containsSub parsed.query vEqPat then
    match qsFirst ['v'] (parse_qslL parsed.query) with
    | some v => some (takeUntilChar '&' v)
    | none => none
  else none

/-- `clean_youtube_url`, on character lists. -/
def cleanL (urlL : List Char) : List Char :=
  if urlL = [] then urlL
  else
    let parsed := urlparseL urlL
    if containsSub urlL ytWatchPat || containsSub urlL ytBePat then
      match cleanVideoId urlL parsed with
      | some vid => if vid ≠ [] then canonPre ++ vid else cleanRest urlL
      | none => cleanRest urlL
    else cleanRest urlL

/-- `clean_youtube_url` on strings. -/
def clean_youtube_url (url : String) : String := String.mk (cleanL url.data)

/-- Claim C4 as stated: for `formatType=video` with `quality=<N>p`, the
built selector expression encodes exactly the spec's five-step fallback
chain, in that order. -/
def claimC4 : Prop :=
  ∀ (file_format quality : String) (height : Nat) (s : String),
    quality ≠ "best" → parseHeight quality = some height →
    videoFormatString file_format quality = some s →
    splitOnCharL '/' s.data = specFallbackChain (toLowerS file_format) height

/-- Claim C9 as stated: `clean_youtube_url` is idempotent on every
input string. -/
def claimC9 : Prop :=
  ∀ url : String,
    clean_youtube_url (clean_youtube_url url) = clean_youtube_url url

/-- The set of characters a canonical YouTube video id draws from. -/
def goodChar (c : Char) : Bool := c.isAlphanum || c == '_' || c == '-'

/-- Reasoning aid: `pat` and `s` disagree at some position where both
are defined (so `pat` cannot be a prefix of `s ++ anything`). -/
def hasMismatch : List Char → List Char → Bool
  | [], _ => false
  | _, [] => false
  | p :: ps, c :: cs => (p != c) || hasMismatch ps cs

/-- Reasoning aid: no occurrence of `pat` can start inside `a` (each
start position shows a mismatch within `a` itself), so searching
`a ++ b` reduces to searching `b`. -/
def neverStartsIn (a pat : List Char) : Bool :=
  match a with
  | [] => true
  | _ :: a₂ => hasMismatch pat a && neverStartsIn a₂ pat

/-! # Theorems -/

/-! ## Rounding lemmas -/

theorem floor_le_roundHalfEven (x : ℚ) : ⌊x⌋ ≤ roundHalfEven x := by
  unfold roundHalfEven
  split_ifs <;> omega

theorem roundHalfEven_le_floor_add_one (x : ℚ) :
    roundHalfEven x ≤ ⌊x⌋ + 1 := by
  unfold roundHalfEven
  split_ifs <;> omega

theorem roundHalfEven_mono {x y : ℚ} (h : x ≤ y) :
    roundHalfEven x ≤ roundHalfEven y := by
  have hf : ⌊x⌋ ≤ ⌊y⌋ := Int.floor_le_floor h
  rcases lt_or_eq_of_le hf with hlt | heq
  · calc roundHalfEven x ≤ ⌊x⌋ + 1 := roundHalfEven_le_floor_add_one x
      _ ≤ ⌊y⌋ := by omega
      _ ≤ roundHalfEven y := floor_le_roundHalfEven y
  · have hfx : (⌊x⌋ : ℚ) ≤ x := Int.floor_le x
    have hfy : (⌊y⌋ : ℚ) ≤ y := Int.floor_le y
    unfold roundHalfEven
    rw [← heq]
    split_ifs <;> first | omega | linarith

theorem pyRound2_mono {x y : ℚ} (h : x ≤ y) : pyRound2 x ≤ pyRound2 y := by
  unfold pyRound2
  have h1 : roundHalfEven (x * 100) ≤ roundHalfEven (y * 100) :=
    roundHalfEven_mono (mul_le_mul_of_nonneg_right h (by norm_num))
  have h2 : ((roundHalfEven (x * 100) : ℤ) : ℚ) ≤
      ((roundHalfEven (y * 100) : ℤ) : ℚ) := by exact_mod_cast h1
  linarith

theorem pyRound2_zero : pyRound2 0 = 0 := by
  norm_num [pyRound2, roundHalfEven]

/-! ## C5: the audio bitrate table -/

/-- C5: the audio bitrate tier resolves through the fixed table — a
tier in {128, 192, 256, 320} maps to itself, `"best"` maps to `"192"`,
and any other string maps to the `"192"` default (no error). -/
theorem C5_audio_quality_table :
    ∀ q : String,
      (q ∈ ["128", "192", "256", "320"] → audioQuality q = q) ∧
      audioQuality "best" = "192" ∧
      (q ∉ ["128", "192", "256", "320", "best"] → audioQuality q = "192") := by
  intro q
  refine ⟨fun hq => ?_, rfl, fun hq => ?_⟩
  · simp only [List.mem_cons, List.not_mem_nil, or_false] at hq
    rcases hq with rfl | rfl | rfl | rfl <;> rfl
  · have h1 : q ≠ "128" := fun e => hq (by simp [e])
    have h2 : q ≠ "192" := fun e => hq (by simp [e])
    have h3 : q ≠ "256" := fun e => hq (by simp [e])
    have h4 : q ≠ "320" := fun e => hq (by simp [e])
    have h5 : q ≠ "best" := fun e => hq (by simp [e])
    simp [audioQuality, quality_map, List.find?,
      beq_eq_false_iff_ne.mpr (Ne.symm h1), beq_eq_false_iff_ne.mpr (Ne.symm h2),
      beq_eq_false_iff_ne.mpr (Ne.symm h3), beq_eq_false_iff_ne.mpr (Ne.symm h4),
      beq_eq_false_iff_ne.mpr (Ne.symm h5)]

/-- Witness for C5 at the concrete tiers `"256"` and the unrecognized
`"999"`. -/
theorem C5_audio_quality_table_witness :
    audioQuality "256" = "256" ∧ audioQuality "999" = "192" :=
  ⟨(C5_audio_quality_table "256").1 (by simp),
   (C5_audio_quality_table "999").2.2 (by simp)⟩

/-! ## C8: the hook never raises -/

/-- C8: `progress_hook` never lets an exception reach its caller — for
every event and every (arbitrarily failing) store-write operation, the
hook returns normally. -/
theorem C8_hook_never_raises :
    ∀ (write : JobStatus → Except String Unit) (d : Event),
      progress_hook write d = Except.ok () := by
  intro write d
  unfold progress_hook
  cases hsnap : hookSnapshot d with
  | none => rfl
  | some s => cases hw : write s <;> simp [hw]

/-! ## C10: the format-type branch -/

/-- C10: every `format` value other than the exact string `"audio"`
(including the default `"video"` and unrecognized values) selects the
video configuration; the audio configuration is built only for
`format = "audio"`. -/
theorem C10_format_branch :
    ∀ (format_type file_format quality : String),
      (format_type ≠ "audio" →
        buildYdlOpts format_type file_format quality =
          (videoFormatString file_format quality).map
            (fun fs => .video ⟨fs, toLowerS file_format⟩)) ∧
      buildYdlOpts "audio" file_format quality =
        some (.audio ⟨"bestaudio/best", toLowerS file_format,
          audioQuality quality⟩) := by
  intro ft ff q
  constructor
  · intro h
    unfold buildYdlOpts
    rw [if_neg h]
  · rfl

/-- Witness for C10: the default `"video"` and an unrecognized
`"playlist"` both build the video configuration. -/
theorem C10_format_branch_witness :
    buildYdlOpts "video" "mp4" "best" =
      some (.video ⟨"bestvideo+bestaudio/best", toLowerS "mp4"⟩) ∧
    buildYdlOpts "playlist" "mkv" "best" =
      some (.video ⟨"bestvideo+bestaudio/best", toLowerS "mkv"⟩) := by
  refine ⟨?_, ?_⟩
  · rw [(C10_format_branch "video" "mp4" "best").1 (by decide)]
    rfl
  · rw [(C10_format_branch "playlist" "mkv" "best").1 (by decide)]
    rfl

/-! ## C2: the hook's snapshot, corrected for rounding -/

/-- C2 fails as stated: the stored percent is `round(·, 2)` of the
claimed value.  At a `downloading` event with `downloaded = 1`,
`total = 3`, the stored percent is `33.33`, not `min(100/3, 99.9)`. -/
theorem C2_counterexample : ¬ claimC2 := by
  intro h
  obtain ⟨h1, -, -⟩ :=
    h ⟨"downloading", some 3, none, some 1, none, none⟩
  have he : effTotal ⟨"downloading", some 3, none, some 1, none, none⟩ = 3 := rfl
  obtain ⟨s, hs, -, hp⟩ := h1 rfl (by rw [he]; norm_num)
  have hcomp : hookSnapshot ⟨"downloading", some 3, none, some 1, none, none⟩ =
      some (.downloading (3333/100) 1 3 0 0) := by
    norm_num [hookSnapshot, effTotal, pyRound2, roundHalfEven,
      Int.floor_eq_iff, min_def]
  rw [hcomp] at hs
  obtain rfl := (Option.some.injEq _ _).mp hs
  rw [he] at hp
  norm_num [JobStatus.percentOf, min_def] at hp

/-- C2 amended: on a `downloading` event with a positive known total
the snapshot written has state `downloading` and percent
`round(min(downloaded/total*100, 99.9), 2)` (rounded to two decimal
places); with no positive total known, percent 0; on `finished`, state
`processing` with percent 95. -/
theorem C2_hook_behavior :
    ∀ d : Event,
      (d.status = "downloading" → 0 < effTotal d →
        hookSnapshot d = some (.downloading
          (pyRound2 (min ((d.downloaded_bytes.getD 0 : ℚ) /
            (effTotal d : ℚ) * 100) (999/10)))
          (d.downloaded_bytes.getD 0) (effTotal d)
          (d.speed.getD 0) (d.eta.getD 0))) ∧
      (d.status = "downloading" → effTotal d = 0 →
        hookSnapshot d = some (.downloading 0 (d.downloaded_bytes.getD 0) 0
          (d.speed.getD 0) (d.eta.getD 0))) ∧
      (d.status = "finished" → hookSnapshot d = some (.processing 95)) := by
  intro d
  refine ⟨fun h hpos => ?_, fun h hz => ?_, fun h => ?_⟩
  · simp [hookSnapshot, h, hpos]
  · simp [hookSnapshot, h, hz, pyRound2_zero]
  · simp [hookSnapshot, h]

/-- Witness for C2 at concrete events of each of the three kinds. -/
theorem C2_hook_behavior_witness :
    hookSnapshot ⟨"downloading", some 1000, none, some 500, some 7, some 9⟩ =
      some (.downloading (pyRound2 (min ((500 : ℚ) / 1000 * 100) (999/10)))
        500 1000 7 9) ∧
    hookSnapshot ⟨"downloading", none, none, some 5, none, none⟩ =
      some (.downloading 0 5 0 0 0) ∧
    hookSnapshot ⟨"finished", none, none, none, none, none⟩ =
      some (.processing 95) := by
  refine ⟨?_, ?_, ?_⟩
  · exact (C2_hook_behavior _).1 rfl (by norm_num [effTotal])
  · exact (C2_hook_behavior _).2.1 rfl (by norm_num [effTotal])
  · exact (C2_hook_behavior _).2.2 rfl

/-! ## C1: percent monotonicity, corrected -/

/-- The two-event engine trace refuting monotonicity: a `downloading`
event at 999/1000 bytes (percent 99.9), then the `finished` event
(percent pinned to 95). -/
def c1Events : List Event :=
  [⟨"downloading", some 1000, none, some 999, none, none⟩,
   ⟨"finished", none, none, none, none, none⟩]

/-- C1 fails as stated: on the trace `c1Events` the store successively
holds a `downloading` snapshot at percent 99.9 and then a `processing`
snapshot at percent 95 — both states are in {downloading, processing}
and the percent decreases. -/
theorem C1_counterexample : ¬ claimC1 c1Events "f.mp4" "title" := by
  intro h
  obtain ⟨hmono, -⟩ := h
  have h1 : hookSnapshot ⟨"downloading", some 1000, none, some 999, none, none⟩ =
      some (.downloading (999/10) 999 1000 0 0) := by
    norm_num [hookSnapshot, effTotal, pyRound2, roundHalfEven,
      Int.floor_eq_iff, min_def]
  have h2 : hookSnapshot ⟨"finished", none, none, none, none, none⟩ =
      some (.processing 95) := rfl
  have htr : runTrace c1Events "f.mp4" "title" =
      [.downloading (999/10) 999 1000 0 0, .processing 95,
       completedWrite "f.mp4" "title"] := by
    simp [runTrace, c1Events, List.filterMap_cons, h1, h2]
  rw [htr] at hmono
  have := hmono 0 1 (by norm_num) (by norm_num) (by norm_num) rfl rfl
  norm_num [JobStatus.percentOf] at this

/-- C1 amended: the `completed` snapshot always has percent exactly
100, and across `downloading` events sharing the same positive total,
percent is non-decreasing in the downloaded byte count; but the
`finished` event pins percent to 95 (which may be below the last
downloading percent), and a `downloading` event with no known total
resets percent to 0, so monotonicity does not hold unconditionally. -/
theorem C1_percent_amended :
    ∀ (d₁ d₂ : Event) (t : Nat) (s₁ s₂ : JobStatus) (fn ttl : String),
      (d₁.status = "downloading" → d₂.status = "downloading" →
        effTotal d₁ = t → effTotal d₂ = t → 0 < t →
        d₁.downloaded_bytes.getD 0 ≤ d₂.downloaded_bytes.getD 0 →
        hookSnapshot d₁ = some s₁ → hookSnapshot d₂ = some s₂ →
        s₁.percentOf ≤ s₂.percentOf) ∧
      (completedWrite fn ttl).percentOf = 100 := by
  intro d₁ d₂ t s₁ s₂ fn ttl
  constructor
  · intro h1 h2 ht1 ht2 hpos hle hs1 hs2
    simp only [hookSnapshot, h1, if_pos rfl, ht1] at hs1
    simp only [hookSnapshot, h2, if_pos rfl, ht2] at hs2
    rw [if_pos hpos] at hs1 hs2
    obtain rfl := (Option.some.injEq _ _).mp hs1
    obtain rfl := (Option.some.injEq _ _).mp hs2
    simp only [JobStatus.percentOf]
    apply pyRound2_mono
    apply min_le_min _ le_rfl
    have htq : (0 : ℚ) < (t : ℚ) := by exact_mod_cast hpos
    have hdq : ((d₁.downloaded_bytes.getD 0 : Nat) : ℚ) ≤
        ((d₂.downloaded_bytes.getD 0 : Nat) : ℚ) := by exact_mod_cast hle
    gcongr
  · rfl

/-- Witness for C1 at two concrete `downloading` events over the same
total of 1000 bytes. -/
theorem C1_percent_amended_witness :
    (JobStatus.downloading (pyRound2 (min ((500 : ℚ) / 1000 * 100) (999/10)))
        500 1000 0 0).percentOf ≤
      (JobStatus.downloading (pyRound2 (min ((999 : ℚ) / 1000 * 100) (999/10)))
        999 1000 0 0).percentOf ∧
    (completedWrite "f.mp4" "title").percentOf = 100 := by
  refine ⟨?_, (C1_percent_amended
    ⟨"finished", none, none, none, none, none⟩
    ⟨"finished", none, none, none, none, none⟩ 1
    (.processing 95) (.processing 95) "f.mp4" "title").2⟩
  exact (C1_percent_amended
      ⟨"downloading", some 1000, none, some 500, none, none⟩
      ⟨"downloading", some 1000, none, some 999, none, none⟩
      1000 _ _ "f.mp4" "title").1
    rfl rfl rfl rfl (by norm_num)
    (by norm_num)
    (by norm_num [hookSnapshot, effTotal])
    (by norm_num [hookSnapshot, effTotal])

/-! ## Store lemmas -/

theorem storeGet_set_self (s : Store) (id : String) (v : JobStatus) :
    storeGet (storeSet s id v) id = some v := by
  unfold storeGet storeSet
  simp [List.find?_cons]

theorem storeGet_del_self (s : Store) (id : String) :
    storeGet (storeDel s id) id = none := by
  unfold storeGet storeDel
  have hnone : List.find? (fun p => p.1 == id)
      (List.filter (fun p => !(p.1 == id)) s) = none :=
    List.find?_eq_none.mpr (fun x hx => by
      simpa using (List.mem_filter.mp hx).2)
  rw [hnone]
  rfl

/-! ## C6: submission validation -/

/-- C6: submitting with an absent or empty url returns the 400
validation error and leaves the store unchanged; a non-empty url
creates a `queued` entry under the fresh id and returns success with
that id. -/
theorem C6_submit :
    ∀ (req : DownloadRequest) (freshId : String) (s : Store),
      (req.urlOf = "" →
        download req freshId s = (.error400 "URL gerekli", s)) ∧
      (req.urlOf ≠ "" →
        download req freshId s =
          (.success freshId, storeSet s freshId (.queued 0)) ∧
        storeGet (download req freshId s).2 freshId = some (.queued 0)) := by
  intro req fid s
  constructor
  · intro h
    unfold download
    rw [if_pos h]
  · intro h
    unfold download
    rw [if_neg h]
    exact ⟨rfl, storeGet_set_self s fid (.queued 0)⟩

/-- Witness for C6: a submission with no url field is rejected and the
store stays empty; a submission with a url creates the queued entry. -/
theorem C6_submit_witness :
    download ⟨none, none, none, none⟩ "id1" [] = (.error400 "URL gerekli", []) ∧
    download ⟨some "https://youtu.be/x", some "audio", some "mp3", some "320"⟩
        "id2" [] =
      (.success "id2", storeSet [] "id2" (.queued 0)) :=
  ⟨(C6_submit ⟨none, none, none, none⟩ "id1" []).1 rfl,
   ((C6_submit ⟨some "https://youtu.be/x", some "audio", some "mp3", some "320"⟩
      "id2" []).2 (by decide)).1⟩

/-! ## C7: delivery preconditions -/

/-- C7: the delivery handler streams the file exactly when the store
entry exists, is `completed`, and its (non-empty) artifact path exists
on disk; in every other case it answers 404, and for a `queued` job the
reply is 404 and is independent of the filesystem state (no file
I/O). -/
theorem C7_delivery :
    ∀ (store : Store) (files : List String) (id : String),
      (∀ fp fn, download_file store files id = .fileStream fp fn ↔
        ∃ percent title,
          storeGet store id = some (.completed percent fn fp title) ∧
          fp ≠ "" ∧ fp ∈ files) ∧
      (∀ percent, storeGet store id = some (.queued percent) →
        download_file store files id = .notFound404 "İndirme tamamlanmadı" ∧
        ∀ files', download_file store files' id =
          download_file store files id) := by
  intro store files id
  constructor
  · intro fp fn
    unfold download_file
    cases hget : storeGet store id with
    | none => simp
    | some st =>
      cases st with
      | queued p => simp [JobStatus.statusKey, JobStatus.filepathOf]
      | downloading p a b c e => simp [JobStatus.statusKey]
      | processing p => simp [JobStatus.statusKey]
      | jobError m => simp [JobStatus.statusKey]
      | completed p fn' fp' ttl =>
        simp only [JobStatus.statusKey, JobStatus.filepathOf,
          JobStatus.filenameOf, ne_eq, not_true_eq_false, if_false]
        by_cases hfp : fp' = ""
        · subst hfp
          simp only [if_pos rfl]
          constructor
          · intro he
            exact absurd he (by simp)
          · rintro ⟨percent, title, hsome, hne, -⟩
            obtain ⟨-, -, h3, -⟩ :=
              JobStatus.completed.inj (Option.some.injEq _ _ |>.mp hsome)
            exact absurd h3.symm hne
        · rw [if_neg hfp]
          by_cases hmem : files.contains fp'
          · rw [if_pos hmem]
            constructor
            · intro he
              obtain ⟨h1, h2⟩ := FileResponse.fileStream.inj he
              subst h1; subst h2
              exact ⟨p, ttl, rfl, hfp, by simpa using hmem⟩
            · rintro ⟨percent, title, hsome, -, -⟩
              obtain ⟨-, h2, h3, -⟩ :=
                JobStatus.completed.inj (Option.some.injEq _ _ |>.mp hsome)
              rw [h2, h3]
              rfl
          · rw [if_neg hmem]
            constructor
            · intro he
              exact absurd he (by simp)
            · rintro ⟨percent, title, hsome, -, hin⟩
              obtain ⟨-, -, h3, -⟩ :=
                JobStatus.completed.inj (Option.some.injEq _ _ |>.mp hsome)
              rw [← h3] at hin
              exact absurd (List.elem_eq_true_of_mem hin) hmem
  · intro p hget
    have hnf : download_file store files id =
        .notFound404 "İndirme tamamlanmadı" := by
      unfold download_file
      rw [hget]
      rfl
    refine ⟨hnf, fun files' => ?_⟩
    rw [hnf]
    unfold download_file
    rw [hget]
    rfl

/-- Witness for C7: a completed entry with its file on disk streams;
a queued entry yields 404. -/
theorem C7_delivery_witness :
    download_file [("a", .completed 100 "f.mp4" "/tmp/f.mp4" "T")]
        ["/tmp/f.mp4"] "a" = .fileStream "/tmp/f.mp4" "f.mp4" ∧
    download_file [("b", .queued 0)] ["/tmp/f.mp4"] "b" =
      .notFound404 "İndirme tamamlanmadı" :=
  ⟨((C7_delivery [("a", .completed 100 "f.mp4" "/tmp/f.mp4" "T")]
      ["/tmp/f.mp4"] "a").1 "/tmp/f.mp4" "f.mp4").mpr
      ⟨100, "T", by decide, by decide, by decide⟩,
   ((C7_delivery [("b", .queued 0)] ["/tmp/f.mp4"] "b").2 0 (by decide)).1⟩

/-! ## C3: cleanup vs. lookups -/

/-- C3 fails as stated: the cleanup removes the file from disk before
taking the lock and removing the store entry, so in the intermediate
state a lookup still returns the `completed` record whose artifact path
no longer exists on disk. -/
theorem C3_counterexample :
    ¬ claimC3 ⟨[("job1", .completed 100 "f.mp4" "/tmp/f.mp4" "t")],
        ["/tmp/f.mp4"]⟩ "/tmp/f.mp4" "job1" := by
  intro h
  have := h (cleanupFileStep
    ⟨[("job1", .completed 100 "f.mp4" "/tmp/f.mp4" "t")], ["/tmp/f.mp4"]⟩
    "/tmp/f.mp4") (by simp [cleanupTrace])
  revert this
  decide

/-- C3 amended: once the deferred cleanup has run to completion, a
lookup of the job id returns "not found" and the artifact file is gone;
but the two removals are not atomic — between them a lookup can observe
the record with a dangling path (see the counterexample). -/
theorem C3_cleanup_amended :
    ∀ (s : SysState) (filepath id : String),
      statusLookup (delete_file_after_delay s filepath id) id = none ∧
      filepath ∉ (delete_file_after_delay s filepath id).files := by
  intro s fp id
  constructor
  · unfold statusLookup delete_file_after_delay cleanupStoreStep
    dsimp only
    by_cases h : (storeGet (cleanupFileStep s fp).store id).isSome
    · rw [if_pos h]
      exact storeGet_del_self _ _
    · rw [if_neg h]
      exact Option.not_isSome_iff_eq_none.mp h
  · unfold delete_file_after_delay cleanupStoreStep cleanupFileStep
    dsimp only
    intro hmem
    have := (List.mem_filter.mp hmem).2
    simp at this

/-! ## Character-list splitting lemmas -/

theorem splitOnCharL_eq_single {t : Char} {l : List Char} (h : ∀ c ∈ l, c ≠ t) :
    splitOnCharL t l = [l] := by
  induction l with
  | nil => rfl
  | cons c cs ih =>
    have hc : c ≠ t := h c (List.mem_cons_self ..)
    rw [splitOnCharL, if_neg hc, ih (fun x hx => h x (List.mem_cons_of_mem _ hx))]

theorem splitOnCharL_cons_self (t : Char) (l : List Char) :
    splitOnCharL t (t :: l) = [] :: splitOnCharL t l := by
  rw [splitOnCharL, if_pos rfl]

theorem splitOnCharL_append {t : Char} {a : List Char} {b : List Char}
    (h : ∀ c ∈ a, c ≠ t) {y : List Char} {ys : List (List Char)}
    (hb : splitOnCharL t b = y :: ys) :
    splitOnCharL t (a ++ b) = (a ++ y) :: ys := by
  induction a with
  | nil => simpa using hb
  | cons c cs ih =>
    have hc : c ≠ t := h c (List.mem_cons_self ..)
    rw [List.cons_append, splitOnCharL, if_neg hc,
      ih (fun x hx => h x (List.mem_cons_of_mem _ hx))]
    rfl

/-! ## Decimal digits of `toString` on naturals -/

theorem digitChar_isDigit (n : Nat) (h : n < 10) :
    (Nat.digitChar n).isDigit = true := by
  interval_cases n <;> decide

theorem toDigitsCore_digits (fuel : Nat) :
    ∀ (n : Nat) (ds : List Char), (∀ c ∈ ds, c.isDigit = true) →
      ∀ c ∈ Nat.toDigitsCore 10 fuel n ds, c.isDigit = true := by
  induction fuel with
  | zero =>
    intro n ds hds c hc
    rw [Nat.toDigitsCore] at hc
    exact hds c hc
  | succ fuel ih =>
    intro n ds hds c hc
    rw [Nat.toDigitsCore] at hc
    by_cases h0 : n / 10 = 0
    · rw [if_pos h0] at hc
      rcases List.mem_cons.mp hc with rfl | hmem
      · exact digitChar_isDigit _ (Nat.mod_lt _ (by norm_num))
      · exact hds c hmem
    · rw [if_neg h0] at hc
      refine ih (n / 10) _ ?_ c hc
      intro x hx
      rcases List.mem_cons.mp hx with rfl | hmem
      · exact digitChar_isDigit _ (Nat.mod_lt _ (by norm_num))
      · exact hds x hmem

theorem toString_nat_digits (n : Nat) :
    ∀ c ∈ (toString n).data, c.isDigit = true := by
  intro c hc
  exact toDigitsCore_digits (n + 1) n [] (by simp) c hc

theorem toString_nat_no_slash (n : Nat) :
    ∀ c ∈ (toString n).data, c ≠ '/' := by
  intro c hc e
  have := toString_nat_digits n c hc
  rw [e] at this
  simp at this

/-! ## C4: the video fallback chain -/

/-- C4 fails as stated: for `file_format = "mkv"`, `quality = "720p"`
the built selector has only three fallback alternatives and no
container preference, not the claimed five-step chain. -/
theorem C4_counterexample : ¬ claimC4 := by
  intro h
  have := h "mkv" "720p" 720
    "bestvideo[height<=720]+bestaudio/best[height<=720]/best"
    (by decide) (by decide) (by decide)
  revert this
  decide

/-- C4 amended: the fallback chain depends on the container.  For mp4:
(mp4 container + height, with m4a audio) → (any container + height) →
(best *in mp4* under the height) → (best in mp4) → (absolute best); for
mkv: (any container + height) → (best under the height) → (absolute
best); for any other container: (any container + height) → (absolute
best). -/
theorem C4_selector_chain :
    ∀ (file_format quality : String) (height : Nat),
      quality ≠ "best" → parseHeight quality = some height →
      (toLowerS file_format = "mp4" →
        ∃ s, videoFormatString file_format quality = some s ∧
          splitOnCharL '/' s.data =
            [ "bestvideo[height<=".data ++ (toString height).data ++
                "][ext=mp4]+bestaudio[ext=m4a]".data,
              "bestvideo[height<=".data ++ (toString height).data ++
                "]+bestaudio".data,
              "best[height<=".data ++ (toString height).data ++
                "][ext=mp4]".data,
              "best[ext=mp4]".data,
              "best".data ]) ∧
      (toLowerS file_format = "mkv" →
        ∃ s, videoFormatString file_format quality = some s ∧
          splitOnCharL '/' s.data =
            [ "bestvideo[height<=".data ++ (toString height).data ++
                "]+bestaudio".data,
              "best[height<=".data ++ (toString height).data ++ "]".data,
              "best".data ]) ∧
      (toLowerS file_format ≠ "mp4" → toLowerS file_format ≠ "mkv" →
        ∃ s, videoFormatString file_format quality = some s ∧
          splitOnCharL '/' s.data =
            [ "bestvideo[height<=".data ++ (toString height).data ++
                "]+bestaudio".data,
              "best".data ]) := by
  intro ff q height hq hh
  have hd : ∀ c ∈ (toString height).data, c ≠ '/' := toString_nat_no_slash height
  have t5 : splitOnCharL '/' ("best".data) = ["best".data] :=
    splitOnCharL_eq_single (by decide)
  refine ⟨fun hmp4 => ?_, fun hmkv => ?_, fun hmp4 hmkv => ?_⟩
  · refine ⟨"bestvideo[height<=" ++ toString height ++
      "][ext=mp4]+bestaudio[ext=m4a]/bestvideo[height<=" ++ toString height ++
      "]+bestaudio/best[height<=" ++ toString height ++
      "][ext=mp4]/best[ext=mp4]/best", ?_, ?_⟩
    · rw [videoFormatString, if_neg hq, hh]
      dsimp only
      rw [if_pos hmp4]
    have e1 : "][ext=mp4]+bestaudio[ext=m4a]/bestvideo[height<=".data =
        "][ext=mp4]+bestaudio[ext=m4a]".data ++ '/' ::
          "bestvideo[height<=".data := by decide
    have e2 : "]+bestaudio/best[height<=".data =
        "]+bestaudio".data ++ '/' :: "best[height<=".data := by decide
    have e3 : "][ext=mp4]/best[ext=mp4]/best".data =
        "][ext=mp4]".data ++ '/' ::
          ("best[ext=mp4]".data ++ '/' :: "best".data) := by decide
    have hsdata : ("bestvideo[height<=" ++ toString height ++
        "][ext=mp4]+bestaudio[ext=m4a]/bestvideo[height<=" ++
        toString height ++ "]+bestaudio/best[height<=" ++ toString height ++
        "][ext=mp4]/best[ext=mp4]/best").data =
        "bestvideo[height<=".data ++ ((toString height).data ++
          ("][ext=mp4]+bestaudio[ext=m4a]".data ++ '/' ::
          ("bestvideo[height<=".data ++ ((toString height).data ++
            ("]+bestaudio".data ++ '/' ::
            ("best[height<=".data ++ ((toString height).data ++
              ("][ext=mp4]".data ++ '/' ::
              ("best[ext=mp4]".data ++ '/' :: "best".data))))))))) := by
      simp [String.data_append, e1, e2, e3, List.append_assoc]
    rw [hsdata]
    have t4 : splitOnCharL '/' ("best[ext=mp4]".data ++ '/' :: "best".data) =
        ("best[ext=mp4]".data ++ []) :: ["best".data] :=
      splitOnCharL_append (by decide) (by rw [splitOnCharL_cons_self, t5])
    have t3 : splitOnCharL '/' ("best[height<=".data ++
        ((toString height).data ++ ("][ext=mp4]".data ++ '/' ::
          ("best[ext=mp4]".data ++ '/' :: "best".data)))) =
        ("best[height<=".data ++ ((toString height).data ++
          ("][ext=mp4]".data ++ []))) ::
          [("best[ext=mp4]".data ++ []), "best".data] := by
      refine splitOnCharL_append (by decide) ?_
      refine splitOnCharL_append hd ?_
      refine splitOnCharL_append (by decide) ?_
      rw [splitOnCharL_cons_self, t4]
    have t2 : splitOnCharL '/' ("bestvideo[height<=".data ++
        ((toString height).data ++ ("]+bestaudio".data ++ '/' ::
        ("best[height<=".data ++ ((toString height).data ++
          ("][ext=mp4]".data ++ '/' ::
          ("best[ext=mp4]".data ++ '/' :: "best".data))))))) =
        ("bestvideo[height<=".data ++ ((toString height).data ++
          ("]+bestaudio".data ++ []))) ::
          [("best[height<=".data ++ ((toString height).data ++
            ("][ext=mp4]".data ++ []))),
           ("best[ext=mp4]".data ++ []), "best".data] := by
      refine splitOnCharL_append (by decide) ?_
      refine splitOnCharL_append hd ?_
      refine splitOnCharL_append (by decide) ?_
      rw [splitOnCharL_cons_self, t3]
    have t1 : splitOnCharL '/' ("bestvideo[height<=".data ++
        ((toString height).data ++
        ("][ext=mp4]+bestaudio[ext=m4a]".data ++ '/' ::
        ("bestvideo[height<=".data ++ ((toString height).data ++
          ("]+bestaudio".data ++ '/' ::
          ("best[height<=".data ++ ((toString height).data ++
            ("][ext=mp4]".data ++ '/' ::
            ("best[ext=mp4]".data ++ '/' :: "best".data)))))))))) =
        ("bestvideo[height<=".data ++ ((toString height).data ++
          ("][ext=mp4]+bestaudio[ext=m4a]".data ++ []))) ::
          [("bestvideo[height<=".data ++ ((toString height).data ++
            ("]+bestaudio".data ++ []))),
           ("best[height<=".data ++ ((toString height).data ++
             ("][ext=mp4]".data ++ []))),
           ("best[ext=mp4]".data ++ []), "best".data] := by
      refine splitOnCharL_append (by decide) ?_
      refine splitOnCharL_append hd ?_
      refine splitOnCharL_append (by decide) ?_
      rw [splitOnCharL_cons_self, t2]
    rw [t1]
    simp [List.append_assoc]
  · refine ⟨"bestvideo[height<=" ++ toString height ++
      "]+bestaudio/best[height<=" ++ toString height ++ "]/best", ?_, ?_⟩
    · rw [videoFormatString, if_neg hq, hh]
      dsimp only
      rw [if_neg (show ¬ toLowerS ff = "mp4" by rw [hmkv]; decide),
        if_pos hmkv]
    have e2 : "]+bestaudio/best[height<=".data =
        "]+bestaudio".data ++ '/' :: "best[height<=".data := by decide
    have e3 : "]/best".data = "]".data ++ '/' :: "best".data := by decide
    have hsdata : ("bestvideo[height<=" ++ toString height ++
        "]+bestaudio/best[height<=" ++ toString height ++ "]/best").data =
        "bestvideo[height<=".data ++ ((toString height).data ++
          ("]+bestaudio".data ++ '/' ::
          ("best[height<=".data ++ ((toString height).data ++
            ("]".data ++ '/' :: "best".data))))) := by
      simp [String.data_append, e2, e3, List.append_assoc]
    rw [hsdata]
    have t3 : splitOnCharL '/' ("best[height<=".data ++
        ((toString height).data ++ ("]".data ++ '/' :: "best".data))) =
        ("best[height<=".data ++ ((toString height).data ++
          ("]".data ++ []))) :: ["best".data] := by
      refine splitOnCharL_append (by decide) ?_
      refine splitOnCharL_append hd ?_
      refine splitOnCharL_append (by decide) ?_
      rw [splitOnCharL_cons_self, t5]
    have t2 : splitOnCharL '/' ("bestvideo[height<=".data ++
        ((toString height).data ++ ("]+bestaudio".data ++ '/' ::
        ("best[height<=".data ++ ((toString height).data ++
          ("]".data ++ '/' :: "best".data)))))) =
        ("bestvideo[height<=".data ++ ((toString height).data ++
          ("]+bestaudio".data ++ []))) ::
          [("best[height<=".data ++ ((toString height).data ++
            ("]".data ++ []))), "best".data] := by
      refine splitOnCharL_append (by decide) ?_
      refine splitOnCharL_append hd ?_
      refine splitOnCharL_append (by decide) ?_
      rw [splitOnCharL_cons_self, t3]
    rw [t2]
    simp [List.append_assoc]
  · refine ⟨"bestvideo[height<=" ++ toString height ++ "]+bestaudio/best",
      ?_, ?_⟩
    · rw [videoFormatString, if_neg hq, hh]
      dsimp only
      rw [if_neg hmp4, if_neg hmkv]
    have e4 : "]+bestaudio/best".data =
        "]+bestaudio".data ++ '/' :: "best".data := by decide
    have hsdata : ("bestvideo[height<=" ++ toString height ++
        "]+bestaudio/best").data =
        "bestvideo[height<=".data ++ ((toString height).data ++
          ("]+bestaudio".data ++ '/' :: "best".data)) := by
      simp [String.data_append, e4, List.append_assoc]
    rw [hsdata]
    have t2 : splitOnCharL '/' ("bestvideo[height<=".data ++
        ((toString height).data ++ ("]+bestaudio".data ++ '/' ::
          "best".data))) =
        ("bestvideo[height<=".data ++ ((toString height).data ++
          ("]+bestaudio".data ++ []))) :: ["best".data] := by
      refine splitOnCharL_append (by decide) ?_
      refine splitOnCharL_append hd ?_
      refine splitOnCharL_append (by decide) ?_
      rw [splitOnCharL_cons_self, t5]
    rw [t2]
    simp [List.append_assoc]

/-- Witness for C4 at the three container classes (`"mp4"`, `"MKV"`
which lowercases to `"mkv"`, and `"webm"`), at concrete heights. -/
theorem C4_selector_chain_witness :
    (∃ s, videoFormatString "mp4" "1080p" = some s ∧
      splitOnCharL '/' s.data =
        [ "bestvideo[height<=".data ++ (toString 1080).data ++
            "][ext=mp4]+bestaudio[ext=m4a]".data,
          "bestvideo[height<=".data ++ (toString 1080).data ++
            "]+bestaudio".data,
          "best[height<=".data ++ (toString 1080).data ++ "][ext=mp4]".data,
          "best[ext=mp4]".data,
          "best".data ]) ∧
    (∃ s, videoFormatString "MKV" "720p" = some s ∧
      splitOnCharL '/' s.data =
        [ "bestvideo[height<=".data ++ (toString 720).data ++
            "]+bestaudio".data,
          "best[height<=".data ++ (toString 720).data ++ "]".data,
          "best".data ]) ∧
    (∃ s, videoFormatString "webm" "480p" = some s ∧
      splitOnCharL '/' s.data =
        [ "bestvideo[height<=".data ++ (toString 480).data ++
            "]+bestaudio".data,
          "best".data ]) :=
  ⟨(C4_selector_chain "mp4" "1080p" 1080 (by decide) (by decide)).1 (by decide),
   (C4_selector_chain "MKV" "720p" 720 (by decide) (by decide)).2.1 (by decide),
   (C4_selector_chain "webm" "480p" 480 (by decide) (by decide)).2.2
     (by decide) (by decide)⟩

/-! ## Substring-search lemmas -/

theorem leadsWith_append_of {pat a : List Char} (b : List Char)
    (h : leadsWith pat a = true) : leadsWith pat (a ++ b) = true := by
  induction pat generalizing a with
  | nil => rfl
  | cons p ps ih =>
    cases a with
    | nil => exact absurd h (by simp [leadsWith])
    | cons c cs =>
      rw [List.cons_append, leadsWith]
      rw [leadsWith, Bool.and_eq_true] at h
      rw [h.1, ih h.2]
      rfl

theorem containsSub_append_left {a : List Char} (pat b : List Char)
    (h : containsSub a pat = true) : containsSub (a ++ b) pat = true := by
  induction a with
  | nil =>
    cases pat with
    | nil =>
      cases b with
      | nil => rfl
      | cons c cs => simp [containsSub, leadsWith]
    | cons p ps => exact absurd h (by simp [containsSub, leadsWith])
  | cons c cs ih =>
    rw [containsSub, Bool.or_eq_true] at h
    rw [List.cons_append, containsSub, Bool.or_eq_true]
    rcases h with h | h
    · exact Or.inl (by rw [← List.cons_append]; exact leadsWith_append_of b h)
    · exact Or.inr (ih h)

theorem leadsWith_false_of_mismatch {pat a : List Char} (b : List Char)
    (h : hasMismatch pat a = true) : leadsWith pat (a ++ b) = false := by
  induction pat generalizing a with
  | nil => simp [hasMismatch] at h
  | cons p ps ih =>
    cases a with
    | nil => simp [hasMismatch] at h
    | cons c cs =>
      rw [hasMismatch, Bool.or_eq_true] at h
      rw [List.cons_append, leadsWith]
      rcases h with h | h
      · rw [bne_iff_ne] at h
        simp [h]
      · rw [ih h]
        simp

theorem containsSub_append_shift {a pat : List Char} (b : List Char)
    (h : neverStartsIn a pat = true) :
    containsSub (a ++ b) pat = containsSub b pat := by
  induction a with
  | nil => rfl
  | cons c cs ih =>
    rw [neverStartsIn, Bool.and_eq_true] at h
    rw [List.cons_append, containsSub, ← List.cons_append,
      leadsWith_false_of_mismatch b h.1, Bool.false_or]
    exact ih h.2

theorem mem_of_leadsWith {pat s : List Char} (h : leadsWith pat s = true) :
    ∀ x ∈ pat, x ∈ s := by
  induction pat generalizing s with
  | nil => simp
  | cons p ps ih =>
    cases s with
    | nil => exact absurd h (by simp [leadsWith])
    | cons c cs =>
      rw [leadsWith, Bool.and_eq_true, beq_iff_eq] at h
      intro x hx
      rcases List.mem_cons.mp hx with rfl | hx
      · rw [h.1]; exact List.mem_cons_self ..
      · exact List.mem_cons_of_mem _ (ih h.2 x hx)

theorem containsSub_eq_false_of_missing {l pat : List Char} {p : Char}
    (hp : p ∈ pat) (h : ∀ c ∈ l, c ≠ p) : containsSub l pat = false := by
  induction l with
  | nil =>
    cases pat with
    | nil => simp at hp
    | cons q qs => simp [containsSub, leadsWith]
  | cons c cs ih =>
    rw [containsSub]
    have h1 : leadsWith pat (c :: cs) = false := by
      by_contra hc
      have := mem_of_leadsWith (by simpa using hc) p hp
      rcases List.mem_cons.mp this with rfl | hmem
      · exact h p (List.mem_cons_self ..) rfl
      · exact h p (List.mem_cons_of_mem _ hmem) rfl
    rw [h1, ih (fun x hx => h x (List.mem_cons_of_mem _ hx))]
    rfl

/-! ## Split and scan lemmas -/

theorem splitAtFirst_append_of_some {t : Char} {a x y : List Char}
    (b : List Char) (h : splitAtFirst t a = some (x, y)) :
    splitAtFirst t (a ++ b) = some (x, y ++ b) := by
  induction a generalizing x with
  | nil => simp [splitAtFirst] at h
  | cons c cs ih =>
    rw [splitAtFirst] at h
    rw [List.cons_append, splitAtFirst]
    by_cases hc : c = t
    · rw [if_pos hc] at h ⊢
      obtain ⟨h1, h2⟩ := Prod.mk.inj (Option.some.injEq _ _ |>.mp h)
      rw [← h1, ← h2]
    · rw [if_neg hc] at h ⊢
      cases hs : splitAtFirst t cs with
      | none => rw [hs] at h; simp at h
      | some p =>
        obtain ⟨x₂, y₂⟩ := p
        rw [hs] at h
        rw [Option.map_some'] at h
        replace h := Option.some.injEq _ _ |>.mp h
        dsimp only at h
        obtain ⟨h1, h2⟩ := Prod.mk.inj h
        have hs2 : splitAtFirst t cs = some (x₂, y) := by rw [hs, h2]
        rw [ih hs2]
        simp [← h1]

theorem splitAtFirst_eq_none {t : Char} {l : List Char}
    (h : ∀ c ∈ l, c ≠ t) : splitAtFirst t l = none := by
  induction l with
  | nil => rfl
  | cons c cs ih =>
    rw [splitAtFirst, if_neg (h c (List.mem_cons_self ..)),
      ih (fun x hx => h x (List.mem_cons_of_mem _ hx))]
    rfl

theorem takeNetloc_append_of_stopped {a n r : List Char} (b : List Char)
    (h : takeNetloc a = (n, r)) (hr : r ≠ []) :
    takeNetloc (a ++ b) = (n, r ++ b) := by
  induction a generalizing n with
  | nil =>
    rw [takeNetloc] at h
    obtain ⟨h1, h2⟩ := Prod.mk.inj h
    exact absurd h2.symm hr
  | cons c cs ih =>
    rw [takeNetloc] at h
    rw [List.cons_append, takeNetloc]
    by_cases hc : c = '/' ∨ c = '?' ∨ c = '#'
    · rw [if_pos hc] at h
      obtain ⟨h1, h2⟩ := Prod.mk.inj h
      rw [if_pos hc, ← h1, ← h2]
      rfl
    · rw [if_neg hc] at h
      rw [if_neg hc]
      cases ht : takeNetloc cs with
      | mk n₂ r₂ =>
        rw [ht] at h
        obtain ⟨h1, h2⟩ := Prod.mk.inj h
        have hs2 : takeNetloc cs = (n₂, r) := by rw [ht, h2]
        rw [ih hs2, ← h1]

theorem takeUntilChar_of_not_mem {t : Char} {l : List Char}
    (h : ∀ c ∈ l, c ≠ t) : takeUntilChar t l = l := by
  induction l with
  | nil => rfl
  | cons c cs ih =>
    rw [takeUntilChar, if_neg (h c (List.mem_cons_self ..)),
      ih (fun x hx => h x (List.mem_cons_of_mem _ hx))]

theorem pctDecode_of_no_pct {l : List Char} (h : ∀ c ∈ l, c ≠ '%') :
    pctDecode l = l := by
  induction l with
  | nil => rfl
  | cons c cs ih =>
    have hc : c ≠ '%' := h c (List.mem_cons_self ..)
    have hrest : pctDecode cs = cs := ih (fun x hx => h x (List.mem_cons_of_mem _ hx))
    cases cs with
    | nil => simp [pctDecode, hc]
    | cons c₂ cs₂ =>
      cases cs₂ with
      | nil => simp [pctDecode, hc, hrest]
      | cons c₃ cs₃ => simp [pctDecode, hc, hrest]

theorem mapPlusSpace_of_no_plus {l : List Char} (h : ∀ c ∈ l, c ≠ '+') :
    l.map (fun c => if c = '+' then ' ' else c) = l := by
  induction l with
  | nil => rfl
  | cons c cs ih =>
    rw [List.map_cons, if_neg (h c (List.mem_cons_self ..)),
      ih (fun x hx => h x (List.mem_cons_of_mem _ hx))]

theorem unquotePlus_of_plain {l : List Char}
    (hplus : ∀ c ∈ l, c ≠ '+') (hpct : ∀ c ∈ l, c ≠ '%') :
    unquotePlus l = l := by
  unfold unquotePlus
  rw [mapPlusSpace_of_no_plus hplus]
  exact pctDecode_of_no_pct hpct

/-! ## C9: idempotency of URL cleaning -/

/-- C9 fails as stated: on the input `"youtu.be"` the first pass
produces `https://www.youtube.com/watch?v=youtu.be`, and — because the
cleaner keys on the substring `youtu.be` anywhere in the url — the
second pass extracts the path segment `watch` instead, producing
`https://www.youtube.com/watch?v=watch`. -/
theorem C9_counterexample : ¬ claimC9 := by
  intro h
  have := h "youtu.be"
  revert this
  decide

theorem goodChar_ne {c t : Char} (h : goodChar c = true)
    (ht : goodChar t = false) : c ≠ t := by
  intro e
  rw [e, ht] at h
  exact Bool.false_ne_true h

theorem goodChar_keepSafe {c : Char} (h : goodChar c = true) :
    keepSafe c = true := by
  have h1 : c ≠ '\t' := goodChar_ne h (by decide)
  have h2 : c ≠ '\r' := goodChar_ne h (by decide)
  have h3 : c ≠ '\n' := goodChar_ne h (by decide)
  simp [keepSafe, beq_eq_false_iff_ne.mpr h1, beq_eq_false_iff_ne.mpr h2,
    beq_eq_false_iff_ne.mpr h3]

/-- C9 amended: `clean_youtube_url` is not idempotent on arbitrary
strings (see the counterexample), but every canonical
`https://www.youtube.com/watch?v=<id>` URL whose id is non-empty and
drawn from the video-id alphabet (alphanumerics, `_`, `-`) is a fixed
point. -/
theorem C9_canonical_fixed_point :
    ∀ id : String, id ≠ "" → (∀ c ∈ id.data, goodChar c = true) →
    clean_youtube_url ("https://www.youtube.com/watch?v=" ++ id) =
      "https://www.youtube.com/watch?v=" ++ id := by
  intro id hne hgood
  obtain ⟨d⟩ := id
  have hD : ∀ c ∈ d, goodChar c = true := hgood
  have hdne : d ≠ [] := fun e => hne (by rw [e])
  have hND : ∀ c ∈ d, c ≠ '.' := fun c hc => goodChar_ne (hD c hc) (by decide)
  have hNA : ∀ c ∈ d, c ≠ '&' := fun c hc => goodChar_ne (hD c hc) (by decide)
  have hNP : ∀ c ∈ d, c ≠ '%' := fun c hc => goodChar_ne (hD c hc) (by decide)
  have hNPl : ∀ c ∈ d, c ≠ '+' := fun c hc => goodChar_ne (hD c hc) (by decide)
  -- url data
  have hurl : (("https://www.youtube.com/watch?v=" : String) ++ String.mk d).data =
      canonPre ++ d := by
    rw [String.data_append]
    rfl
  -- removeUnsafe
  have hA : removeUnsafe (canonPre ++ d) = canonPre ++ d := by
    unfold removeUnsafe
    rw [List.filter_append,
      show List.filter keepSafe canonPre = canonPre from by decide,
      List.filter_eq_self.mpr (fun c hc => goodChar_keepSafe (hD c hc))]
  -- schemeSplit
  have hB : schemeSplit (canonPre ++ d) =
      ("https".data, "//www.youtube.com/watch?v=".data ++ d) := by
    unfold schemeSplit
    rw [splitAtFirst_append_of_some d
      (show splitAtFirst ':' canonPre =
        some ("https".data, "//www.youtube.com/watch?v=".data) from by decide)]
    dsimp only
    rw [if_pos (by decide)]
    rw [show ("https".data.map Char.toLower) = "https".data from by decide]
  -- netlocSplit
  have hlead : leadsWith ['/', '/'] ("//www.youtube.com/watch?v=".data ++ d) = true :=
    leadsWith_append_of d (by decide)
  have hdrop : ("//www.youtube.com/watch?v=".data ++ d).drop 2 =
      "www.youtube.com/watch?v=".data ++ d := by
    rw [show "//www.youtube.com/watch?v=".data =
      '/' :: '/' :: "www.youtube.com/watch?v=".data from by decide]
    rfl
  have htn : takeNetloc ("www.youtube.com/watch?v=".data ++ d) =
      ("www.youtube.com".data, "/watch?v=".data ++ d) :=
    takeNetloc_append_of_stopped d (by decide) (by decide)
  have hC : netlocSplit ("//www.youtube.com/watch?v=".data ++ d) =
      ("www.youtube.com".data, "/watch?v=".data ++ d) := by
    unfold netlocSplit
    rw [if_pos hlead, hdrop, htn]
  -- fragSplit
  have hconc : ∀ x ∈ "/watch?v=".data, x ≠ '#' := by decide
  have hnoH : ∀ c ∈ "/watch?v=".data ++ d, c ≠ '#' := by
    intro c hc
    rcases List.mem_append.mp hc with h | h
    · exact hconc c h
    · exact goodChar_ne (hD c h) (by decide)
  have hD1 : fragSplit ("/watch?v=".data ++ d) = ("/watch?v=".data ++ d, []) := by
    unfold fragSplit
    rw [splitAtFirst_eq_none hnoH]
  -- querySplit
  have hE : querySplit ("/watch?v=".data ++ d) = ("/watch".data, "v=".data ++ d) := by
    unfold querySplit
    rw [splitAtFirst_append_of_some d
      (show splitAtFirst '?' "/watch?v=".data =
        some ("/watch".data, "v=".data) from by decide)]
  -- splitParams
  have hF : splitParamsL "/watch".data = ("/watch".data, []) := by decide
  -- urlparse
  have hG : urlparseL (canonPre ++ d) =
      ⟨"https".data, "www.youtube.com".data, "/watch".data, [],
       "v=".data ++ d, []⟩ := by
    simp only [urlparseL]
    rw [hA, hB]
    dsimp only
    rw [hC]
    dsimp only
    rw [hD1]
    dsimp only
    rw [hE]
    dsimp only
    rw [hF]
  -- contains facts
  have hW : containsSub (canonPre ++ d) ytWatchPat = true :=
    containsSub_append_left _ d (by decide)
  have hBe : containsSub (canonPre ++ d) ytBePat = false := by
    rw [containsSub_append_shift d
      (show neverStartsIn canonPre ytBePat = true from by decide)]
    exact containsSub_eq_false_of_missing
      (show '.' ∈ ytBePat from by decide) hND
  -- parse_qsl
  have hq1 : splitOnCharL '&' ('v' :: '=' :: d) = ['v' :: '=' :: d] :=
    splitOnCharL_eq_single (by
      intro c hc
      rcases List.mem_cons.mp hc with rfl | hc
      · decide
      rcases List.mem_cons.mp hc with rfl | hc
      · decide
      · exact goodChar_ne (hD c hc) (by decide))
  have hq2 : splitAtFirst '=' ('v' :: '=' :: d) = some (['v'], d) := by
    rw [splitAtFirst, if_neg (by decide), splitAtFirst, if_pos rfl]
    rfl
  have hqs : parse_qslL ("v=".data ++ d) = [(['v'], d)] := by
    rw [show "v=".data ++ d = 'v' :: '=' :: d from rfl]
    unfold parse_qslL
    rw [hq1]
    simp only [List.filterMap_cons, List.filterMap_nil]
    rw [if_neg (by simp), hq2]
    dsimp only
    rw [if_neg hdne]
    dsimp only
    rw [unquotePlus_of_plain hNPl hNP]
    rw [show unquotePlus ['v'] = ['v'] from by decide]
  have hqf : qsFirst ['v'] [(['v'], d)] = some d := by
    unfold qsFirst
    simp [List.find?]
  -- cleanVideoId
  have hcv : cleanVideoId (canonPre ++ d)
      ⟨"https".data, "www.youtube.com".data, "/watch".data, [],
       "v=".data ++ d, []⟩ = some d := by
    unfold cleanVideoId
    rw [if_neg (by rw [hBe]; simp)]
    rw [if_pos (by
      dsimp only
      rw [show containsSub "/watch".data watchPat = true from by decide]
      simp)]
    dsimp only
    rw [hqs, hqf]
    dsimp only
    rw [takeUntilChar_of_not_mem hNA]
  -- final
  have hne2 : ¬(canonPre ++ d = []) := by
    intro e
    have : canonPre = [] := (List.append_eq_nil.mp e).1
    revert this
    decide
  have hmain : cleanL (canonPre ++ d) = canonPre ++ d := by
    simp only [cleanL]
    rw [if_neg hne2]
    rw [hG, hcv]
    rw [if_pos (by rw [hW]; simp)]
    dsimp only
    rw [if_pos hdne]
  show String.mk (cleanL (("https://www.youtube.com/watch?v=" : String) ++ String.mk d).data) = _
  rw [hurl, hmain]
  rfl


/-- Witness for C9 at the concrete id `"abc123"`. -/
theorem C9_canonical_fixed_point_witness :
    clean_youtube_url ("https://www.youtube.com/watch?v=" ++ "abc123") =
      "https://www.youtube.com/watch?v=" ++ "abc123" :=
  C9_canonical_fixed_point "abc123" (by decide) (by decide)

end YtWeb
